import Mathlib

/-!
Verification of the surge download engine against its specification.

The definitions below are a shallow embedding of the Go sources of the
surge repository.  Machine integers (`int64`) are modelled as `Int`
(overflow is irrelevant at the file sizes the claims quantify over),
strings as `String`/`List Char`, and stateful code as explicit state
passing.  Concurrency is modelled by making the values read from shared
atomics (`StopAt` re-reads, read sizes delivered by the network)
explicit adversarial parameters of each step function.
-/

namespace Surge

/-- Embedding of `types.Task` (a half-open byte range `[offset, offset+length)`),
fields `Offset`/`Length` of Go type `int64`. -/
structure Task where
  offset : Int
  length : Int
deriving DecidableEq, Repr

/-- Loop body of `createTasks` (task.go): starting from `offset`, emit tasks of
`chunkSize` bytes (the last one truncated to `fileSize`) while `offset < fileSize`.
The `0 < chunkSize` conjunct is enforced by the caller's `chunkSize <= 0` guard
and only serves termination here. -/
def createTasksGo (fileSize chunkSize offset : Int) : List Task :=
  if h : 0 < chunkSize ∧ offset < fileSize then
    ⟨offset, if offset + chunkSize > fileSize then fileSize - offset else chunkSize⟩ ::
      createTasksGo fileSize chunkSize (offset + chunkSize)
  else []
termination_by (fileSize - offset).toNat
decreasing_by
  omega

/-- Embedding of `createTasks` (task.go lines 169-183): generates the initial
task queue from file size and chunk size; returns `nil` for `chunkSize <= 0`. -/
def createTasks (fileSize chunkSize : Int) : List Task :=
  if chunkSize ≤ 0 then [] else createTasksGo fileSize chunkSize 0

/-- `tilesB stop start l` holds when the tasks of `l` tile the half-open
interval `[start, stop)` exactly: consecutive, pairwise disjoint, with
positive lengths, starting at `start` and ending at `stop`. -/
def tilesB (stop : Int) : Int → List Task → Bool
  | start, [] => start = stop
  | start, t :: ts => t.offset = start && 0 < t.length && tilesB stop (start + t.length) ts

theorem createTasksGo_eq_nil (fileSize chunkSize offset : Int)
    (h : ¬ (0 < chunkSize ∧ offset < fileSize)) :
    createTasksGo fileSize chunkSize offset = [] := by
  rw [createTasksGo]
  simp [h]

theorem createTasksGo_eq_cons (fileSize chunkSize offset : Int)
    (h : 0 < chunkSize ∧ offset < fileSize) :
    createTasksGo fileSize chunkSize offset =
      ⟨offset, if offset + chunkSize > fileSize then fileSize - offset else chunkSize⟩ ::
        createTasksGo fileSize chunkSize (offset + chunkSize) := by
  rw [createTasksGo]
  simp [h]

theorem createTasksGo_tiles (fileSize chunkSize : Int) :
    ∀ (offset : Int), 0 < chunkSize → offset ≤ fileSize →
      tilesB fileSize offset (createTasksGo fileSize chunkSize offset) = true := by
  intro offset
  induction offset using createTasksGo.induct fileSize chunkSize with
  | case1 offset h ih =>
    intro hc hle
    rw [createTasksGo_eq_cons fileSize chunkSize offset h]
    by_cases hlast : offset + chunkSize > fileSize
    · have hrest : createTasksGo fileSize chunkSize (offset + chunkSize) = [] :=
        createTasksGo_eq_nil _ _ _ (by omega)
      simp [tilesB, hlast, hrest]
      omega
    · have := ih hc (by omega)
      simp [tilesB, hlast]
      constructor
      · omega
      · exact this
  | case2 offset h =>
    intro hc hle
    have hoff : offset = fileSize := by omega
    rw [createTasksGo_eq_nil fileSize chunkSize offset h]
    simp [tilesB, hoff]

theorem tilesB_sum (stop : Int) :
    ∀ (start : Int) (l : List Task), tilesB stop start l = true →
      start + (l.map Task.length).sum = stop := by
  intro start l
  induction l generalizing start with
  | nil => simp [tilesB]
  | cons t ts ih =>
    intro h
    simp only [tilesB, Bool.and_eq_true, decide_eq_true_eq] at h
    have := ih (start + t.length) h.2
    simp only [List.map_cons, List.sum_cons]
    omega

theorem tilesB_chain (stop : Int) :
    ∀ (start : Int) (l : List Task), tilesB stop start l = true →
      List.Chain' (fun a b => a.offset + a.length = b.offset ∧ a.offset < b.offset) l := by
  intro start l
  induction l generalizing start with
  | nil => intro _; simp
  | cons t ts ih =>
    intro h
    simp only [tilesB, Bool.and_eq_true, decide_eq_true_eq] at h
    obtain ⟨⟨hoff, hpos⟩, hrest⟩ := h
    have hc := ih (start + t.length) hrest
    cases ts with
    | nil => simp
    | cons u us =>
      simp only [tilesB, Bool.and_eq_true, decide_eq_true_eq] at hrest
      refine List.Chain'.cons ?_ hc
      constructor <;> omega

theorem tilesB_lower_bound (stop : Int) :
    ∀ (start : Int) (l : List Task), tilesB stop start l = true →
      ∀ t ∈ l, start ≤ t.offset ∧ 0 < t.length ∧ t.offset + t.length ≤ stop := by
  intro start l
  induction l generalizing start with
  | nil => intro _ t ht; simp at ht
  | cons u us ih =>
    intro h t ht
    simp only [tilesB, Bool.and_eq_true, decide_eq_true_eq] at h
    obtain ⟨⟨hoff, hpos⟩, hrest⟩ := h
    have hsum := tilesB_sum stop (start + u.length) us hrest
    have hsum_nonneg : 0 ≤ (us.map Task.length).sum := by
      have : ∀ x ∈ us.map Task.length, 0 ≤ x := by
        intro x hx
        simp only [List.mem_map] at hx
        obtain ⟨v, hv, rfl⟩ := hx
        have := ih (start + u.length) hrest v hv
        omega
      exact List.sum_nonneg this
    rcases List.mem_cons.mp ht with rfl | hmem
    · refine ⟨le_of_eq hoff.symm, hpos, ?_⟩
      omega
    · have := ih (start + u.length) hrest t hmem
      omega

theorem tilesB_pairwise (stop : Int) (start : Int) (l : List Task)
    (h : tilesB stop start l = true) :
    List.Pairwise (fun a b => a.offset + a.length ≤ b.offset) l := by
  induction l generalizing start with
  | nil => simp
  | cons t ts ih =>
    simp only [tilesB, Bool.and_eq_true, decide_eq_true_eq] at h
    obtain ⟨⟨hoff, hpos⟩, hrest⟩ := h
    refine List.Pairwise.cons ?_ (ih (start + t.length) hrest)
    intro u hu
    have := tilesB_lower_bound stop (start + t.length) ts hrest u hu
    omega

theorem createTasksGo_ne_nil (fileSize chunkSize offset : Int)
    (hc : 0 < chunkSize) (hlt : offset < fileSize) :
    createTasksGo fileSize chunkSize offset ≠ [] := by
  rw [createTasksGo_eq_cons fileSize chunkSize offset ⟨hc, hlt⟩]
  simp

theorem createTasksGo_dropLast (fileSize chunkSize : Int) :
    ∀ (offset : Int), 0 < chunkSize → offset < fileSize →
      ∀ t ∈ (createTasksGo fileSize chunkSize offset).dropLast, t.length = chunkSize := by
  intro offset
  induction offset using createTasksGo.induct fileSize chunkSize with
  | case1 offset h ih =>
    intro hc hlt t ht
    rw [createTasksGo_eq_cons fileSize chunkSize offset h] at ht
    by_cases hnext : offset + chunkSize < fileSize
    · have hne := createTasksGo_ne_nil fileSize chunkSize (offset + chunkSize) hc hnext
      rw [List.dropLast_cons_of_ne_nil hne] at ht
      rcases List.mem_cons.mp ht with rfl | hmem
      · simp only
        have : ¬ (offset + chunkSize > fileSize) := by omega
        simp [this]
      · exact ih hc hnext t hmem
    · have hrest : createTasksGo fileSize chunkSize (offset + chunkSize) = [] :=
        createTasksGo_eq_nil _ _ _ (by omega)
      rw [hrest] at ht
      simp at ht
  | case2 offset h =>
    intro hc hlt
    exact absurd ⟨hc, hlt⟩ h

theorem createTasksGo_getLast (fileSize chunkSize : Int) :
    ∀ (offset : Int), 0 < chunkSize → offset < fileSize →
      (createTasksGo fileSize chunkSize offset).getLastD ⟨0, 0⟩ =
        ⟨fileSize - ((fileSize - offset) % chunkSize + if (fileSize - offset) % chunkSize = 0 then chunkSize else 0),
         if (fileSize - offset) % chunkSize = 0 then chunkSize else (fileSize - offset) % chunkSize⟩ := by
  intro offset
  induction offset using createTasksGo.induct fileSize chunkSize with
  | case1 offset h ih =>
    intro hc hlt
    rw [createTasksGo_eq_cons fileSize chunkSize offset h]
    by_cases hnext : offset + chunkSize < fileSize
    · have hne := createTasksGo_ne_nil fileSize chunkSize (offset + chunkSize) hc hnext
      have hstep := ih hc hnext
      have hmod : (fileSize - (offset + chunkSize)) % chunkSize = (fileSize - offset) % chunkSize := by
        have harg : fileSize - (offset + chunkSize) = (fileSize - offset) + chunkSize * (-1) := by ring
        rw [harg, Int.add_mul_emod_self_left]
      rw [hmod] at hstep
      cases hrest : createTasksGo fileSize chunkSize (offset + chunkSize) with
      | nil => exact absurd hrest hne
      | cons u us =>
        rw [hrest] at hstep
        simp only [List.getLastD_cons] at hstep ⊢
        exact hstep
    · have hrest : createTasksGo fileSize chunkSize (offset + chunkSize) = [] :=
        createTasksGo_eq_nil _ _ _ (by omega)
      rw [hrest]
      simp only [List.getLastD_cons, List.getLastD_nil]
      have hgt : offset + chunkSize > fileSize ∨ offset + chunkSize = fileSize := by omega
      rcases hgt with hgt | heq
      · have hr : 0 < fileSize - offset := by omega
        have hr2 : fileSize - offset < chunkSize := by omega
        have hmod : (fileSize - offset) % chunkSize = fileSize - offset :=
          Int.emod_eq_of_lt (by omega) hr2
        simp [hgt, hmod]
        omega
      · have hmod : (fileSize - offset) % chunkSize = 0 := by
          have : fileSize - offset = chunkSize := by omega
          simp [this]
        have hngt : ¬ (offset + chunkSize > fileSize) := by omega
        simp [hngt, hmod]
        omega
  | case2 offset h =>
    intro hc hlt
    exact absurd ⟨hc, hlt⟩ h

/-- C5: for every `file_size > 0` and `chunk_size > 0`, `createTasks` returns
tasks in increasing offset order that tile `[0, file_size)` exactly —
contiguous, pairwise disjoint, lengths summing to `file_size` — with every
task's length equal to `chunk_size` except possibly the last, whose length is
`file_size mod chunk_size` when `file_size` is not a multiple of `chunk_size`
(and `chunk_size` itself when it is). -/
theorem c5_createTasks_tiling (fileSize chunkSize : Int)
    (hf : 0 < fileSize) (hc : 0 < chunkSize) :
    tilesB fileSize 0 (createTasks fileSize chunkSize) = true ∧
    List.Chain' (fun a b => a.offset + a.length = b.offset ∧ a.offset < b.offset)
      (createTasks fileSize chunkSize) ∧
    List.Pairwise (fun a b => a.offset + a.length ≤ b.offset)
      (createTasks fileSize chunkSize) ∧
    ((createTasks fileSize chunkSize).map Task.length).sum = fileSize ∧
    (∀ t ∈ (createTasks fileSize chunkSize).dropLast, t.length = chunkSize) ∧
    ((createTasks fileSize chunkSize).getLastD ⟨0, 0⟩).length =
      (if fileSize % chunkSize = 0 then chunkSize else fileSize % chunkSize) := by
  have hnc : ¬ chunkSize ≤ 0 := by omega
  have hunfold : createTasks fileSize chunkSize = createTasksGo fileSize chunkSize 0 := by
    simp [createTasks, hnc]
  rw [hunfold]
  have htiles := createTasksGo_tiles fileSize chunkSize 0 hc (by omega)
  refine ⟨htiles, tilesB_chain fileSize 0 _ htiles, tilesB_pairwise fileSize 0 _ htiles, ?_, ?_, ?_⟩
  · have := tilesB_sum fileSize 0 _ htiles
    omega
  · exact createTasksGo_dropLast fileSize chunkSize 0 hc hf
  · have := createTasksGo_getLast fileSize chunkSize 0 hc hf
    rw [this]
    simp only [Int.sub_zero]

/-- Witness for C5 at `file_size = 10000`, `chunk_size = 4096`. -/
theorem c5_createTasks_tiling_witness :
    (0 : Int) < 10000 ∧ (0 : Int) < 4096 ∧
    (tilesB 10000 0 (createTasks 10000 4096) = true ∧
    List.Chain' (fun a b => a.offset + a.length = b.offset ∧ a.offset < b.offset)
      (createTasks 10000 4096) ∧
    List.Pairwise (fun a b => a.offset + a.length ≤ b.offset)
      (createTasks 10000 4096) ∧
    ((createTasks 10000 4096).map Task.length).sum = 10000 ∧
    (∀ t ∈ (createTasks 10000 4096).dropLast, t.length = 4096) ∧
    ((createTasks 10000 4096).getLastD ⟨0, 0⟩).length =
      (if (10000 : Int) % 4096 = 0 then 4096 else (10000 : Int) % 4096)) :=
  ⟨by norm_num, by norm_num, c5_createTasks_tiling 10000 4096 (by norm_num) (by norm_num)⟩

/-- The part of the worker's write-loop state that the claims are about:
the worker's current offset and the shared `ProgressState.Downloaded` counter
(worker.go `downloadTask`).  The re-read `StopAt` values and the byte counts
delivered by the network are adversarial inputs of each iteration. -/
structure WriterState where
  offset : Int
  downloaded : Int
deriving DecidableEq, Repr

/-- Adversarial environment of one iteration of the read/write loop of
`downloadTask` (worker.go lines 174-278): the three successive atomic loads of
`activeTask.StopAt` (top-of-loop check, pre-write clamp, progress-credit
clamp — the balancer may lower the value between any two of them), and the
number of bytes the reads delivered into the buffer. -/
structure IterEnv where
  stopAt1 : Int
  stopAt2 : Int
  stopAt3 : Int
  bytesRead : Nat
deriving DecidableEq, Repr

/-- Embedding of one iteration of the `for` loop of
`ConcurrentDownloader.downloadTask` (worker.go lines 175-270): the top-of-loop
`StopAt` check, the `readSize` bound `min(len(buf), stopAt - offset)`, the
pre-write clamp of `readSoFar` against the re-read `StopAt`, the offset
advance, and the clamped progress credit
`contributed = min(newOffset, stopAt) - oldOffset` added only when positive.
Iterations that return early (steal detected, nothing read) leave the state
unchanged — reads/writes to the file are not part of this state. -/
def writeLoopIter (bufLen : Nat) (env : IterEnv) (st : WriterState) : WriterState :=
  if st.offset ≥ env.stopAt1 then st
  else
    let readSize : Int := min (bufLen : Int) (env.stopAt1 - st.offset)
    let readSoFar0 : Int := min (env.bytesRead : Int) readSize
    if readSoFar0 > 0 then
      let readSoFar := if st.offset + readSoFar0 > env.stopAt2 then env.stopAt2 - st.offset else readSoFar0
      if readSoFar ≤ 0 then st
      else
        let newOffset := st.offset + readSoFar
        let effectiveEnd := min newOffset env.stopAt3
        let contributed := effectiveEnd - st.offset
        ⟨newOffset, st.downloaded + if contributed > 0 then contributed else 0⟩
    else st

/-- A full run of the write loop under an adversarial schedule of `StopAt`
lowerings and read sizes. -/
def writeLoopRun (bufLen : Nat) (envs : List IterEnv) (st : WriterState) : WriterState :=
  envs.foldl (fun s e => writeLoopIter bufLen e s) st

theorem writeLoopIter_downloaded_eq (bufLen : Nat) (env : IterEnv) (st : WriterState) :
    (writeLoopIter bufLen env st).downloaded =
      st.downloaded + max 0 (min (writeLoopIter bufLen env st).offset env.stopAt3 - st.offset) := by
  simp only [writeLoopIter]
  by_cases h1 : st.offset ≥ env.stopAt1
  · rw [if_pos h1]
    omega
  · rw [if_neg h1]
    by_cases h2 : min (env.bytesRead : Int) (min (bufLen : Int) (env.stopAt1 - st.offset)) > 0
    · rw [if_pos h2]
      by_cases h2a : st.offset + min (env.bytesRead : Int) (min (bufLen : Int) (env.stopAt1 - st.offset)) > env.stopAt2
      · rw [if_pos h2a]
        by_cases h3 : env.stopAt2 - st.offset ≤ 0
        · rw [if_pos h3]
          omega
        · rw [if_neg h3]
          dsimp only
          split_ifs <;> omega
      · rw [if_neg h2a]
        by_cases h3 : min (env.bytesRead : Int) (min (bufLen : Int) (env.stopAt1 - st.offset)) ≤ 0
        · rw [if_pos h3]
          omega
        · rw [if_neg h3]
          dsimp only
          split_ifs <;> omega
    · rw [if_neg h2]
      omega

theorem writeLoopIter_downloaded_le (bufLen : Nat) (env : IterEnv) (st : WriterState) :
    st.downloaded ≤ (writeLoopIter bufLen env st).downloaded := by
  have := writeLoopIter_downloaded_eq bufLen env st
  omega

/-- C2: in the write loop of `downloadTask`, every iteration credits
`Downloaded` with exactly `min(offset_after_write, stop_at) - old_offset`
(where `stop_at` is the value re-read at credit time), the credit is applied
only when positive (captured by the `max 0`), and consequently the
`Downloaded` counter never decreases — neither across a single iteration nor
across any adversarially scheduled run of iterations. -/
theorem c2_downloaded_clamped_monotone (bufLen : Nat) (env : IterEnv)
    (st : WriterState) (envs : List IterEnv) :
    (writeLoopIter bufLen env st).downloaded =
      st.downloaded + max 0 (min (writeLoopIter bufLen env st).offset env.stopAt3 - st.offset) ∧
    st.downloaded ≤ (writeLoopIter bufLen env st).downloaded ∧
    st.downloaded ≤ (writeLoopRun bufLen envs st).downloaded := by
  refine ⟨writeLoopIter_downloaded_eq bufLen env st, writeLoopIter_downloaded_le bufLen env st, ?_⟩
  unfold writeLoopRun
  induction envs generalizing st with
  | nil => simp
  | cons e es ih =>
    simp only [List.foldl_cons]
    exact le_trans (writeLoopIter_downloaded_le bufLen e st) (ih _)

/-- Embedding of `TaskQueue` (task_queue.go): the slice of tasks, the index of
the next task to pop, and the closed flag.  The `idle_workers` counter is
omitted: `Pop` increments and decrements it symmetrically, so it is invisible
to the queue's pop/close behaviour that C9 is about. -/
structure TaskQueue where
  tasks : List Task
  head : Nat
  done : Bool
deriving DecidableEq, Repr

/-- Embedding of `TaskQueue.Pop` (task_queue.go lines 40-65).  `none` models a
call that blocks forever on the condition variable (empty, non-closed queue —
sequential model, no concurrent `Push`).  Otherwise the result carries the
returned `(task, ok)` pair and the updated queue (including the halfway
compaction of the backing slice). -/
def pop (q : TaskQueue) : Option (Task × Bool × TaskQueue) :=
  if q.tasks.length = 0 ∧ ¬ q.done then none
  else if q.tasks.length = 0 then some (⟨0, 0⟩, false, q)
  else
    let t := q.tasks.getD q.head ⟨0, 0⟩
    let head1 := q.head + 1
    if head1 > q.tasks.length / 2 then
      some (t, true, ⟨q.tasks.drop head1, 0, q.done⟩)
    else
      some (t, true, ⟨q.tasks, head1, q.done⟩)

/-- Embedding of `TaskQueue.Close` (task_queue.go lines 67-72): sets the done
flag and broadcasts (waking every blocked `Pop`). -/
def close (q : TaskQueue) : TaskQueue := { q with done := true }

/-- Embedding of `TaskQueue.DrainRemaining` (task_queue.go lines 85-98):
returns and clears every unpopped task. -/
def drainRemaining (q : TaskQueue) : List Task × TaskQueue :=
  if q.head ≥ q.tasks.length then ([], q)
  else (q.tasks.drop q.head, { q with tasks := [], head := 0 })

/-- A closed queue holding one unpopped task, as left by `Push` then `Close`. -/
def qC9 : TaskQueue := ⟨[⟨0, 100⟩], 0, false⟩

/-- C9 counterexample: after `Close()`, a `Pop()` on a non-empty queue returns
the queued task with `ok = true` — not `(zero task, not-ok)` as the claim
asserts for every queue contents.  (Pop's wait loop exits once `done` is set,
but the subsequent length check still hands out remaining tasks.) -/
theorem c9_pop_after_close_counterexample :
    pop (close qC9) = some (⟨0, 100⟩, true, ⟨[], 0, true⟩) ∧
    (pop (close qC9)).map (fun r => r.2.1) ≠ some false := by
  constructor <;> decide

theorem pop_close_empty (q : TaskQueue) (h : q.tasks.length = 0) :
    pop (close q) = some (⟨0, 0⟩, false, close q) := by
  unfold pop close
  simp [h]

theorem pop_close_nonempty (q : TaskQueue) (h : q.tasks.length ≠ 0) :
    (pop (close q)).map (fun r => r.2.1) = some true := by
  unfold pop close
  by_cases hsplit : q.head + 1 > q.tasks.length / 2 <;> simp [h, hsplit]

/-- C9 amended: after `Close()`, no `Pop()` blocks; a `Pop()` returns
`(zero task, not-ok)` iff the queue is empty at the time of the call, and
still returns a task with `ok = true` while tasks remain. -/
theorem c9_pop_after_close (q : TaskQueue) :
    pop (close q) ≠ none ∧
    (q.tasks.length = 0 → pop (close q) = some (⟨0, 0⟩, false, close q)) ∧
    (q.tasks.length ≠ 0 → (pop (close q)).map (fun r => r.2.1) = some true) := by
  refine ⟨?_, fun h => pop_close_empty q h, fun h => pop_close_nonempty q h⟩
  by_cases h : q.tasks.length = 0
  · rw [pop_close_empty q h]
    simp
  · intro hnone
    have := pop_close_nonempty q h
    rw [hnone] at this
    simp at this

/-- Witness for C9: both branches of the amended statement at concrete queues. -/
theorem c9_pop_after_close_witness :
    ((⟨[], 0, false⟩ : TaskQueue).tasks.length = 0 ∧
      pop (close ⟨[], 0, false⟩) = some (⟨0, 0⟩, false, close ⟨[], 0, false⟩)) ∧
    ((⟨[⟨0, 4096⟩], 0, false⟩ : TaskQueue).tasks.length ≠ 0 ∧
      (pop (close ⟨[⟨0, 4096⟩], 0, false⟩)).map (fun r => r.2.1) = some true) :=
  ⟨⟨by decide, (c9_pop_after_close ⟨[], 0, false⟩).2.1 (by decide)⟩,
   ⟨by decide, (c9_pop_after_close ⟨[⟨0, 4096⟩], 0, false⟩).2.2 (by decide)⟩⟩

/-- Embedding of the exponential-backoff branch of `RateLimiter.Handle429`
(limiter, lines 141-161): taken when the `Retry-After` header is absent or
unparseable (`waitDuration == 0`).  `hits` is the value of the consecutive-429
counter after this hit (`n >= 1` for the n-th consecutive 429).  The result is
the wait in whole seconds, before jitter. -/
def handle429BackoffSeconds (hits : Nat) : Nat :=
  let backoffMultiplier := 1 <<< min (hits - 1) 5
  if backoffMultiplier > 60 then 60 else backoffMultiplier

/-- C8 counterexample: on the 7th consecutive unadorned 429 the code waits
`2 ^ min(6, 5) = 32` seconds, not `min(2^6, 60) = 60` as the claim states —
the shift cap at `2^5` makes the 60-second clamp unreachable. -/
theorem c8_backoff_counterexample :
    handle429BackoffSeconds 7 = 32 ∧ min (2 ^ (7 - 1)) 60 = 60 ∧ (32 : Nat) ≠ 60 := by
  refine ⟨by decide, by decide, by decide⟩

/-- C8 amended: for every `n >= 1`, the n-th consecutive 429 without a usable
`Retry-After` waits `2 ^ min(n-1, 5)` seconds before jitter — 1 s doubling per
consecutive hit but capped at 32 s (so the code's additional 60 s clamp never
binds). -/
theorem c8_backoff_doubling_capped32 (n : Nat) (h : 1 ≤ n) :
    handle429BackoffSeconds n = 2 ^ min (n - 1) 5 ∧ handle429BackoffSeconds n ≤ 32 := by
  have hle : 1 <<< min (n - 1) 5 ≤ 32 := by
    rw [Nat.one_shiftLeft]
    calc 2 ^ min (n - 1) 5 ≤ 2 ^ 5 := Nat.pow_le_pow_right (by norm_num) (min_le_right _ _)
    _ = 32 := by norm_num
  have hngt : ¬ (1 <<< min (n - 1) 5 > 60) := by omega
  constructor
  · simp only [handle429BackoffSeconds, hngt, if_false]
    exact Nat.one_shiftLeft _
  · simp only [handle429BackoffSeconds, hngt, if_false]
    exact hle

/-- Witness for C8 amended at `n = 7`. -/
theorem c8_backoff_doubling_capped32_witness :
    1 ≤ 7 ∧ (handle429BackoffSeconds 7 = 2 ^ min (7 - 1) 5 ∧ handle429BackoffSeconds 7 ≤ 32) :=
  ⟨by decide, c8_backoff_doubling_capped32 7 (by decide)⟩

/-- Embedding of `strings.ReplaceAll` for a one-character pattern and
one-character replacement (each call in `sanitizeFilename` has this shape). -/
def replaceAllChar (cs : List Char) (a b : Char) : List Char :=
  cs.map (fun c => if c = a then b else c)

/-- The White_Space code points trimmed by Go's `strings.TrimSpace`
(`unicode.IsSpace`). -/
def goIsSpace (c : Char) : Bool :=
  let n := c.toNat
  n = 0x20 || (0x9 ≤ n && n ≤ 0xD) || n = 0x85 || n = 0xA0 ||
    n = 0x1680 || (0x2000 ≤ n && n ≤ 0x200A) || n = 0x2028 || n = 0x2029 ||
    n = 0x202F || n = 0x205F || n = 0x3000

/-- Embedding of `strings.TrimSpace`: drop white space from both ends. -/
def goTrimSpace (cs : List Char) : List Char :=
  ((cs.dropWhile goIsSpace).reverse.dropWhile goIsSpace).reverse

/-- Embedding of `path/filepath.Base` with the Unix separator: the empty path
gives ".", trailing separators are stripped, the element after the last
remaining separator is returned, and an all-separator path gives "/". -/
def goBase (cs : List Char) : List Char :=
  if cs = [] then ['.']
  else
    let r := cs.reverse.dropWhile (fun c => c = '/')
    let b := r.takeWhile (fun c => c ≠ '/')
    if b = [] then ['/'] else b.reverse

/-- Embedding of `sanitizeFilename` (utils, lines 144-165): backslashes become
slashes, `filepath.Base` keeps the last path element, "." passes through, a
bare separator becomes "_", and after trimming white space every path
separator and forbidden filesystem character is replaced by "_". -/
def sanitizeFilename (s : String) : String :=
  let name0 := replaceAllChar s.toList '\\' '/'
  let name1 := goBase name0
  if name1 = ['.'] then String.mk name1
  else if name1 = ['/'] ∨ name1 = ['\\'] then "_"
  else
    let name2 := goTrimSpace name1
    let name3 := replaceAllChar name2 '/' '_'
    let name4 := replaceAllChar name3 ':' '_'
    let name5 := replaceAllChar name4 '*' '_'
    let name6 := replaceAllChar name5 '?' '_'
    let name7 := replaceAllChar name6 '"' '_'
    let name8 := replaceAllChar name7 '<' '_'
    let name9 := replaceAllChar name8 '>' '_'
    String.mk (replaceAllChar name9 '|' '_')

/-- The path separators and forbidden filesystem characters of claim C10. -/
def isForbiddenChar (c : Char) : Bool :=
  c = '/' || c = '\\' || c = ':' || c = '*' || c = '?' || c = '"' ||
    c = '<' || c = '>' || c = '|'

theorem mem_replaceAllChar {c : Char} {cs : List Char} {a b : Char}
    (h : c ∈ replaceAllChar cs a b) : c = b ∨ (c ∈ cs ∧ c ≠ a) := by
  simp only [replaceAllChar, List.mem_map] at h
  obtain ⟨x, hx, hxe⟩ := h
  by_cases hxa : x = a
  · left
    rw [if_pos hxa] at hxe
    exact hxe.symm
  · right
    rw [if_neg hxa] at hxe
    exact ⟨hxe ▸ hx, hxe ▸ hxa⟩

theorem mem_goTrimSpace {c : Char} {cs : List Char} (h : c ∈ goTrimSpace cs) :
    c ∈ cs := by
  simp only [goTrimSpace, List.mem_reverse] at h
  have h1 := (List.dropWhile_sublist (l := (cs.dropWhile goIsSpace).reverse) (p := goIsSpace)).subset h
  rw [List.mem_reverse] at h1
  exact (List.dropWhile_sublist (p := goIsSpace)).subset h1

theorem mem_goBase {c : Char} {cs : List Char} (h : c ∈ goBase cs) :
    c = '.' ∨ c = '/' ∨ (c ∈ cs ∧ c ≠ '/') := by
  simp only [goBase] at h
  split_ifs at h with h0 h1
  · left
    simpa using h
  · right; left
    simpa using h
  · right; right
    rw [List.mem_reverse] at h
    have hpred := List.mem_takeWhile_imp h
    have hmem := (List.takeWhile_sublist (p := fun c => c ≠ '/')).subset h
    have hmem2 := (List.dropWhile_sublist (p := fun c => c = '/')).subset hmem
    rw [List.mem_reverse] at hmem2
    refine ⟨hmem2, ?_⟩
    simpa using hpred

/-- C10: for every input string, `sanitizeFilename` returns a string that
contains no path separator (`/` or `\`) and none of the forbidden filesystem
characters `:`, `*`, `?`, `"`, `<`, `>`, `|`. -/
theorem c10_sanitizeFilename_no_forbidden (s : String) :
    ((sanitizeFilename s).toList.all (fun c => !(isForbiddenChar c))) = true := by
  rw [List.all_eq_true]
  intro c hc
  simp only [Bool.not_eq_true']
  simp only [sanitizeFilename] at hc
  split_ifs at hc with hdot hsep
  · have hc9 : c ∈ goBase (replaceAllChar s.toList '\\' '/') := hc
    rw [hdot] at hc9
    simp only [List.mem_singleton] at hc9
    subst hc9
    decide
  · have hc9 : c ∈ ['_'] := hc
    simp only [List.mem_singleton] at hc9
    subst hc9
    decide
  · rcases mem_replaceAllChar hc with rfl | ⟨hc, hpipe⟩
    · decide
    rcases mem_replaceAllChar hc with rfl | ⟨hc, hgtc⟩
    · decide
    rcases mem_replaceAllChar hc with rfl | ⟨hc, hltc⟩
    · decide
    rcases mem_replaceAllChar hc with rfl | ⟨hc, hquote⟩
    · decide
    rcases mem_replaceAllChar hc with rfl | ⟨hc, hqm⟩
    · decide
    rcases mem_replaceAllChar hc with rfl | ⟨hc, hstar⟩
    · decide
    rcases mem_replaceAllChar hc with rfl | ⟨hc, hcolon⟩
    · decide
    rcases mem_replaceAllChar hc with rfl | ⟨hc, hslash⟩
    · decide
    have hc1 := mem_goTrimSpace hc
    rcases mem_goBase hc1 with rfl | rfl | ⟨hc0, _⟩
    · decide
    · exact absurd rfl hslash
    · rcases mem_replaceAllChar hc0 with rfl | ⟨_, hbs⟩
      · exact absurd rfl hslash
      · simp only [isForbiddenChar, Bool.or_eq_false_iff, decide_eq_false_iff_not]
        exact ⟨⟨⟨⟨⟨⟨⟨⟨hslash, hbs⟩, hcolon⟩, hstar⟩, hqm⟩, hquote⟩, hltc⟩, hgtc⟩, hpipe⟩

/-- `math.MaxInt64`, the clamp `strconv.ParseInt` returns on positive overflow. -/
def int64Max : Int := 2 ^ 63 - 1

/-- `math.MinInt64`, the clamp `strconv.ParseInt` returns on negative overflow. -/
def int64Min : Int := -(2 ^ 63)

/-- Sign handling of `strconv.ParseInt`: an optional leading `+` or `-`. -/
def stripSign (cs : List Char) : Bool × List Char :=
  match cs with
  | [] => (false, [])
  | c :: r => if c = '+' then (false, r) else if c = '-' then (true, r) else (false, c :: r)

/-- Value of a list of decimal digit characters, most significant first. -/
def digitsToNat (ds : List Char) : Nat :=
  ds.foldl (fun a c => a * 10 + (c.toNat - 48)) 0

/-- Embedding of the value returned (first return value) by
`strconv.ParseInt(s, 10, 64)`: optional sign, at least one decimal digit and
nothing else — otherwise `0` (the syntax-error value); results outside the
`int64` range are clamped (the range-error value). -/
def goParseInt64 (s : String) : Int :=
  let p := stripSign s.toList
  let ds := p.2
  if ds.isEmpty || !(ds.all Char.isDigit) then 0
  else
    let v : Int := (digitsToNat ds : Nat)
    let w : Int := if p.1 then -v else v
    if w > int64Max then int64Max else if w < int64Min then int64Min else w

/-- The substring after the last `/`, as used on `Content-Range` values
(`strings.LastIndex(contentRange, "/")` then `contentRange[idx+1:]`).
Only meaningful when a `/` occurs. -/
def afterLastSlash (cs : List Char) : List Char :=
  (cs.reverse.takeWhile (fun c => c ≠ '/')).reverse

/-- Embedding of the `Content-Range` total parsing of `ProbeServer`
(probe.go lines 82-90): take the text after the last `/`; `*` (and a missing
`/`) leave the size at 0; anything else goes through `strconv.ParseInt`. -/
def parseContentRangeSize (cr : String) : Int :=
  let cs := cr.toList
  if '/' ∈ cs then
    let sizeStr := afterLastSlash cs
    if sizeStr = ['*'] then 0 else goParseInt64 (String.mk sizeStr)
  else 0

/-- The fields of `engine.ProbeResult` that the status-code switch of
`ProbeServer` determines (filename and content type are independent of it). -/
structure ProbeResult where
  fileSize : Int
  supportsRange : Bool
deriving DecidableEq, Repr

/-- Embedding of the status-code switch of `ProbeServer`
(probe.go lines 76-103).  A header is modelled as Go's `Header.Get` delivers
it: the empty string when absent. -/
def probeClassify (statusCode : Nat) (contentRange contentLength : String) :
    Except String ProbeResult :=
  if statusCode = 206 then
    Except.ok ⟨if contentRange ≠ "" then parseContentRangeSize contentRange else 0, true⟩
  else if statusCode = 200 then
    Except.ok ⟨if contentLength ≠ "" then goParseInt64 contentLength else 0, false⟩
  else
    Except.error ("unexpected status code: " ++ toString statusCode)

/-- The decimal digit character for a digit value. -/
def decimalDigitChar (d : Nat) : Char := Char.ofNat (48 + d)

/-- The standard decimal rendering of a natural number, used to state what
"parsed from the header" means independently of the parser. -/
def decimalRepr (n : Nat) : String :=
  if n = 0 then "0" else String.mk ((Nat.digits 10 n).reverse.map decimalDigitChar)

theorem decimalDigitChar_isDigit (d : Nat) (hd : d < 10) :
    (decimalDigitChar d).isDigit = true := by
  interval_cases d <;> decide

theorem decimalDigitChar_toNat (d : Nat) (hd : d < 10) :
    (decimalDigitChar d).toNat = 48 + d := by
  interval_cases d <;> decide

theorem isDigit_ne_slash {c : Char} (h : c.isDigit = true) : c ≠ '/' := by
  intro hc
  subst hc
  simp [Char.isDigit] at h

theorem isDigit_ne_plus {c : Char} (h : c.isDigit = true) : c ≠ '+' := by
  intro hc
  subst hc
  simp [Char.isDigit] at h

theorem isDigit_ne_minus {c : Char} (h : c.isDigit = true) : c ≠ '-' := by
  intro hc
  subst hc
  simp [Char.isDigit] at h

theorem decimalRepr_all_digits (n : Nat) :
    (decimalRepr n).toList.all Char.isDigit = true := by
  unfold decimalRepr
  split_ifs with h0
  · decide
  · rw [List.all_eq_true]
    intro c hc
    replace hc : c ∈ (Nat.digits 10 n).reverse.map decimalDigitChar := hc
    simp only [List.mem_map, List.mem_reverse] at hc
    obtain ⟨d, hd, rfl⟩ := hc
    exact decimalDigitChar_isDigit d (Nat.digits_lt_base (by norm_num) hd)

theorem decimalRepr_toList_ne_nil (n : Nat) : (decimalRepr n).toList ≠ [] := by
  unfold decimalRepr
  split_ifs with h0
  · decide
  · show (Nat.digits 10 n).reverse.map decimalDigitChar ≠ []
    simp [Nat.digits_ne_nil_iff_ne_zero, h0]

theorem decimalRepr_ne_empty (n : Nat) : decimalRepr n ≠ "" := by
  intro h
  exact decimalRepr_toList_ne_nil n (congrArg String.toList h)

theorem stripSign_of_digit (c : Char) (r : List Char) (h : c.isDigit = true) :
    stripSign (c :: r) = (false, c :: r) := by
  show (if c = '+' then ((false, r) : Bool × List Char)
        else if c = '-' then (true, r) else (false, c :: r)) = (false, c :: r)
  rw [if_neg (isDigit_ne_plus h), if_neg (isDigit_ne_minus h)]

theorem foldl_digitsToNat (ds : List Nat) (hds : ∀ d ∈ ds, d < 10) :
    ∀ acc : Nat,
      (ds.reverse.map decimalDigitChar).foldl (fun a c => a * 10 + (c.toNat - 48)) acc
        = acc * 10 ^ ds.length + Nat.ofDigits 10 ds := by
  induction ds with
  | nil => intro acc; simp [Nat.ofDigits]
  | cons d ds ih =>
    intro acc
    have hd : d < 10 := hds d (List.mem_cons_self d ds)
    have hds2 : ∀ x ∈ ds, x < 10 := fun x hx => hds x (List.mem_cons_of_mem d hx)
    rw [List.reverse_cons, List.map_append, List.foldl_append, ih hds2 acc]
    simp only [List.map_cons, List.map_nil, List.foldl_cons, List.foldl_nil,
      decimalDigitChar_toNat d hd, Nat.ofDigits_cons, List.length_cons]
    have : 48 + d - 48 = d := by omega
    rw [this, pow_succ]
    ring

theorem digitsToNat_decimalRepr (n : Nat) : digitsToNat (decimalRepr n).toList = n := by
  by_cases h0 : n = 0
  · subst h0
    decide
  · have htl : (decimalRepr n).toList = (Nat.digits 10 n).reverse.map decimalDigitChar := by
      unfold decimalRepr
      rw [if_neg h0]
      rfl
    rw [htl]
    unfold digitsToNat
    rw [foldl_digitsToNat (Nat.digits 10 n) (fun d hd => Nat.digits_lt_base (by norm_num) hd) 0]
    simp [Nat.ofDigits_digits]

theorem goParseInt64_decimalRepr (n : Nat) (hn : (n : Int) ≤ int64Max) :
    goParseInt64 (decimalRepr n) = (n : Int) := by
  obtain ⟨c, r, hcr⟩ : ∃ c r, (decimalRepr n).toList = c :: r := by
    cases h : (decimalRepr n).toList with
    | nil => exact absurd h (decimalRepr_toList_ne_nil n)
    | cons c r => exact ⟨c, r, rfl⟩
  have hall : (c :: r).all Char.isDigit = true := hcr ▸ decimalRepr_all_digits n
  have hcdig : c.isDigit = true := by
    rw [List.all_eq_true] at hall
    exact hall c (List.mem_cons_self c r)
  unfold goParseInt64
  rw [hcr, stripSign_of_digit c r hcdig]
  simp only [List.isEmpty_cons, hall, Bool.not_true, Bool.or_false, Bool.false_or,
    if_neg (by simp : ¬ (false = true)), Bool.false_eq_true, if_false]
  have hval : digitsToNat (c :: r) = n := by
    rw [← hcr]
    exact digitsToNat_decimalRepr n
  rw [hval]
  have h1 : ¬ ((n : Int) > int64Max) := by omega
  have h2 : ¬ ((n : Int) < int64Min) := by
    have : (0 : Int) ≤ (n : Int) := Int.natCast_nonneg n
    unfold int64Min
    omega
  rw [if_neg h1, if_neg h2]

theorem takeWhile_append_all {α : Type} (p : α → Bool) (l1 l2 : List α)
    (h : ∀ a ∈ l1, p a = true) :
    (l1 ++ l2).takeWhile p = l1 ++ l2.takeWhile p := by
  induction l1 with
  | nil => simp
  | cons a l ih =>
    have ha : p a = true := h a (List.mem_cons_self a l)
    simp only [List.cons_append, List.takeWhile_cons, ha, if_true]
    rw [ih (fun x hx => h x (List.mem_cons_of_mem a hx))]

theorem afterLastSlash_concat (l1 l2 : List Char) (h2 : ∀ c ∈ l2, c ≠ '/') :
    afterLastSlash (l1 ++ '/' :: l2) = l2 := by
  unfold afterLastSlash
  rw [List.reverse_append, List.reverse_cons, List.append_assoc]
  rw [takeWhile_append_all _ l2.reverse _ (by
    intro c hc
    rw [List.mem_reverse] at hc
    simp [h2 c hc])]
  simp

theorem toList_append (s t : String) : (s ++ t).toList = s.toList ++ t.toList :=
  String.data_append s t

theorem probeClassify_206 (cr cl : String) :
    probeClassify 206 cr cl =
      Except.ok ⟨if cr ≠ "" then parseContentRangeSize cr else 0, true⟩ := rfl

theorem probeClassify_200 (cr cl : String) :
    probeClassify 200 cr cl =
      Except.ok ⟨if cl ≠ "" then goParseInt64 cl else 0, false⟩ := rfl

theorem probeClassify_other (st : Nat) (cr cl : String) (h206 : st ≠ 206) (h200 : st ≠ 200) :
    probeClassify st cr cl = Except.error ("unexpected status code: " ++ toString st) := by
  unfold probeClassify
  rw [if_neg h206, if_neg h200]

theorem parseContentRangeSize_of_decimal (n : Nat) (hn : (n : Int) ≤ int64Max) :
    parseContentRangeSize ("bytes 0-0/" ++ decimalRepr n) = (n : Int) := by
  have hsplit : ("bytes 0-0/" ++ decimalRepr n).toList =
      "bytes 0-0".toList ++ '/' :: (decimalRepr n).toList := by
    rw [toList_append]
    rfl
  unfold parseContentRangeSize
  rw [hsplit]
  have hmem : '/' ∈ ("bytes 0-0".toList ++ '/' :: (decimalRepr n).toList) := by
    simp
  rw [if_pos hmem]
  have hdig : ∀ c ∈ (decimalRepr n).toList, c ≠ '/' := by
    intro c hc
    have hall := decimalRepr_all_digits n
    rw [List.all_eq_true] at hall
    exact isDigit_ne_slash (hall c hc)
  rw [afterLastSlash_concat _ _ hdig]
  have hstar : (decimalRepr n).toList ≠ ['*'] := by
    intro h
    have hall := decimalRepr_all_digits n
    rw [h] at hall
    exact absurd hall (by decide)
  rw [if_neg hstar]
  have hmk : String.mk (decimalRepr n).toList = decimalRepr n := rfl
  rw [hmk]
  exact goParseInt64_decimalRepr n hn

/-- C7: `ProbeServer`'s status switch classifies exactly as claimed.  A 206
yields range support with the file size parsed from the `Content-Range`
total (`0` for a `*` total); a 200 yields no range support with the file size
taken from `Content-Length` (`0` when absent); any other status is an error
with no result. -/
theorem c7_probe_classification :
    (∀ (n : Nat) (cl : String), (n : Int) ≤ int64Max →
        probeClassify 206 ("bytes 0-0/" ++ decimalRepr n) cl = Except.ok ⟨(n : Int), true⟩) ∧
    (∀ cl : String, probeClassify 206 "bytes 0-0/*" cl = Except.ok ⟨0, true⟩) ∧
    (∀ (cr : String) (n : Nat), (n : Int) ≤ int64Max →
        probeClassify 200 cr (decimalRepr n) = Except.ok ⟨(n : Int), false⟩) ∧
    (∀ cr : String, probeClassify 200 cr "" = Except.ok ⟨0, false⟩) ∧
    (∀ (st : Nat) (cr cl : String), st ≠ 206 → st ≠ 200 →
        ∃ e, probeClassify st cr cl = Except.error e) := by
  refine ⟨?_, ?_, ?_, ?_, ?_⟩
  · intro n cl hn
    rw [probeClassify_206]
    have hne : ("bytes 0-0/" ++ decimalRepr n) ≠ "" := by
      intro h
      have hsplit : ("bytes 0-0/" ++ decimalRepr n).toList =
          "bytes 0-0".toList ++ '/' :: (decimalRepr n).toList := by
        rw [toList_append]
        rfl
      rw [h] at hsplit
      simp at hsplit
    rw [if_pos hne, parseContentRangeSize_of_decimal n hn]
  · intro cl
    rw [probeClassify_206]
    have hne : ("bytes 0-0/*" : String) ≠ "" := by decide
    have hp : parseContentRangeSize "bytes 0-0/*" = 0 := by decide
    rw [if_pos hne, hp]
  · intro cr n hn
    rw [probeClassify_200, if_pos (decimalRepr_ne_empty n), goParseInt64_decimalRepr n hn]
  · intro cr
    rw [probeClassify_200, if_neg (fun h => h rfl)]
  · intro st cr cl h206 h200
    exact ⟨_, probeClassify_other st cr cl h206 h200⟩

/-- Witness for C7: a concrete 206 response with total 12345 and a concrete
404 probe failure. -/
theorem c7_probe_classification_witness :
    (((12345 : Nat) : Int) ≤ int64Max ∧
      probeClassify 206 ("bytes 0-0/" ++ decimalRepr 12345) "" =
        Except.ok ⟨((12345 : Nat) : Int), true⟩) ∧
    ((404 : Nat) ≠ 206 ∧ (404 : Nat) ≠ 200 ∧
      ∃ e, probeClassify 404 "" "" = Except.error e) :=
  ⟨⟨by decide, c7_probe_classification.1 12345 "" (by decide)⟩,
   ⟨by decide, by decide, c7_probe_classification.2.2.2.2 404 "" "" (by decide) (by decide)⟩⟩

/-- Embedding of `types.DownloadState` (declared in a repository file outside
src/; the fields are exactly those written by task.go's pause branch and
read/written by the state package in part_007).  `elapsed` is nanoseconds. -/
structure DownloadState where
  id : String
  url : String
  destPath : String
  filename : String
  totalSize : Int
  downloaded : Int
  tasks : List Task
  elapsed : Int
  urlHash : String
  pausedAt : Int
  createdAt : Int
deriving DecidableEq, Repr

/-- A row of the `downloads` table, restricted to the columns that
`SaveState`/`LoadState` touch (part_007).  `timeTaken` is milliseconds. -/
structure DownloadRow where
  id : String
  url : String
  destPath : String
  filename : String
  status : String
  totalSize : Int
  downloaded : Int
  urlHash : String
  createdAt : Int
  pausedAt : Int
  timeTaken : Int
deriving DecidableEq, Repr

/-- A row of the `tasks` table: `(download_id, offset, length)`. -/
structure TaskRow where
  downloadId : String
  offset : Int
  length : Int
deriving DecidableEq, Repr

/-- The embedded database: the `downloads` and `tasks` tables. -/
structure Store where
  downloads : List DownloadRow
  tasks : List TaskRow
deriving DecidableEq, Repr

/-- The `INSERT ... ON CONFLICT(id) DO UPDATE` of `SaveState` (part_007 lines
40-54): on an id conflict every inserted column except `created_at` is
overwritten; otherwise the row is inserted. -/
def upsertDownload (rows : List DownloadRow) (r : DownloadRow) : List DownloadRow :=
  if rows.any (fun old => old.id == r.id) then
    rows.map (fun old => if old.id == r.id then { r with createdAt := old.createdAt } else old)
  else rows ++ [r]

/-- Embedding of `state.SaveState` (part_007 lines 23-81).  The sha256 URL
hash is abstracted as the parameter `hash`; `now` is the Unix timestamp taken
for `paused_at` (and for `created_at` when it was unset); `freshId` is the
UUID generated when `state.ID` is empty.  One transaction: upsert the
download row with status hard-coded to "paused", delete the old task rows of
this download, insert the current task list.  `Elapsed` ns is stored as
`time_taken` ms (truncated division, as in Go). -/
def saveState (hash : String → String) (now : Int) (freshId : String)
    (store : Store) (url destPath : String) (s : DownloadState) : Store :=
  let id := if s.id = "" then freshId else s.id
  let row : DownloadRow :=
    ⟨id, s.url, s.destPath, s.filename, "paused", s.totalSize, s.downloaded,
     hash url, if s.createdAt = 0 then now else s.createdAt, now, Int.tdiv s.elapsed 1000000⟩
  ⟨upsertDownload store.downloads row,
   store.tasks.filter (fun tr => tr.downloadId ≠ id) ++
     s.tasks.map (fun t => (⟨id, t.offset, t.length⟩ : TaskRow))⟩

/-- `ORDER BY paused_at DESC LIMIT 1`: the row with the greatest `paused_at`
(the first such row on ties — SQLite's order among equal keys is
unspecified). -/
def newestStep (acc : Option DownloadRow) (r : DownloadRow) : Option DownloadRow :=
  match acc with
  | none => some r
  | some b => if r.pausedAt > b.pausedAt then some r else acc

def newestRow (rows : List DownloadRow) : Option DownloadRow :=
  rows.foldl newestStep none

/-- Embedding of `state.LoadState` (part_007 lines 84-136): the newest-paused
row matching `(url, dest_path)` — note: the query carries no status filter —
plus that row's task rows; a not-found error when no row matches.
`time_taken` ms is converted back to ns for `Elapsed`. -/
def loadState (store : Store) (url destPath : String) : Except String DownloadState :=
  match newestRow (store.downloads.filter (fun r => r.url == url && r.destPath == destPath)) with
  | none => Except.error "state not found"
  | some r =>
      Except.ok ⟨r.id, r.url, r.destPath, r.filename, r.totalSize, r.downloaded,
        (store.tasks.filter (fun t => t.downloadId == r.id)).map
          (fun t => (⟨t.offset, t.length⟩ : Task)),
        r.timeTaken * 1000000, r.urlHash, r.pausedAt, r.createdAt⟩

/-- Embedding of `state.DeleteState` (part_007 lines 139-174): by id when
non-empty, else by `(url, dest_path)`; task rows follow by the schema's
`ON DELETE CASCADE`. -/
def deleteState (store : Store) (id url destPath : String) : Store :=
  if id ≠ "" then
    ⟨store.downloads.filter (fun r => r.id ≠ id),
     store.tasks.filter (fun t => t.downloadId ≠ id)⟩
  else
    let removed := store.downloads.filter (fun r => r.url == url && r.destPath == destPath)
    ⟨store.downloads.filter (fun r => !(r.url == url && r.destPath == destPath)),
     store.tasks.filter (fun t => !(removed.any (fun r => r.id == t.downloadId)))⟩

/-- The fields of an `ActiveTask` read by the pause collector: the atomic
`CurrentOffset` and `StopAt` (task.go lines 13-28). -/
structure ActiveTaskSnap where
  currentOffset : Int
  stopAt : Int
deriving DecidableEq, Repr

/-- Embedding of `ActiveTask.RemainingTask` (task.go lines 41-48): the
remaining range `[current, stop_at)`, or none when complete. -/
def remainingTask (a : ActiveTaskSnap) : Option Task :=
  if a.currentOffset ≥ a.stopAt then none
  else some ⟨a.currentOffset, a.stopAt - a.currentOffset⟩

/-- The terminal outcomes of `ConcurrentDownloader.Download`:
`nil`, the `types.ErrPaused` sentinel, or a worker/disk error. -/
inductive DownloadResult
  | ok
  | errPaused
  | err (msg : String)
deriving DecidableEq, Repr

/-- Embedding of the pause branch of `ConcurrentDownloader.Download`
(task.go lines 396-445), entered when `d.State.IsPaused()`: collect the
`RemainingTask()` of every still-registered `ActiveTask`, drain the queue,
append the active remainders to the drained tasks, compute
`downloaded = fileSize - Σ remaining.length` and
`elapsed = savedElapsed + time since run start`, build the `DownloadState`
(filename = `filepath.Base(destPath)`), persist it through `SaveState`, and
return `types.ErrPaused`. -/
def pauseFinalize (hash : String → String) (now : Int) (freshId : String)
    (id url destPath : String) (fileSize savedElapsed sinceStart : Int)
    (activeTasks : List ActiveTaskSnap) (queue : TaskQueue) (store : Store) :
    Store × DownloadResult :=
  let activeRemaining := activeTasks.filterMap remainingTask
  let drained := (drainRemaining queue).1
  let remainingTasks := drained ++ activeRemaining
  let remainingBytes := (remainingTasks.map Task.length).sum
  let computedDownloaded := fileSize - remainingBytes
  let totalElapsed := savedElapsed + sinceStart
  let s : DownloadState :=
    ⟨id, url, destPath, String.mk (goBase destPath.toList), fileSize, computedDownloaded,
     remainingTasks, totalElapsed, "", 0, 0⟩
  (saveState hash now freshId store url destPath s, DownloadResult.errPaused)

/-- `types.IncompleteSuffix`.  The constants file declaring it is not under
src/; its value is pinned by the repository's own test
`TestGenerateUniqueFilename_IncompleteSuffixConstant` (update_test.go lines
144-148), which fails unless the constant equals ".surge", and by the
`.surge` wording of the comments in task.go and the TUI sources. -/
def IncompleteSuffix : String := ".surge"

/-- The working path of a download: `destPath + types.IncompleteSuffix`
(task.go line 232). -/
def workingPath (destPath : String) : String := destPath ++ IncompleteSuffix

/-- The file-system operations of the concurrent download path. -/
inductive FileOp
  | openRW (path : String)
  | truncateFile (path : String) (size : Int)
  | writeAt (path : String) (offset : Int) (len : Nat)
  | syncFile (path : String)
  | renameFile (src : String) (dst : String)
deriving DecidableEq, Repr

/-- The file a file operation mutates (for a rename, the file being moved). -/
def fileOpTarget : FileOp → String
  | FileOp.openRW p => p
  | FileOp.truncateFile p _ => p
  | FileOp.writeAt p _ _ => p
  | FileOp.syncFile p => p
  | FileOp.renameFile src _ => src

/-- The file operations of one run of `ConcurrentDownloader.Download`
(task.go): open the working file (line 256); truncate it to `fileSize` on a
fresh, non-resume run (line 280); every worker `WriteAt` goes through the
handle opened on the working path (worker.go line 227); on the success path
only — not paused, not cancelled, no worker error — sync the working file and
rename it onto `destPath` (lines 458-466).  `writes` is the run's write
schedule. -/
def downloadFileOps (destPath : String) (fileSize : Int) (freshRun : Bool)
    (writes : List (Int × Nat)) (isPaused ctxCancelled : Bool)
    (workerErr : Option String) : List FileOp :=
  [FileOp.openRW (workingPath destPath)] ++
  (if freshRun then [FileOp.truncateFile (workingPath destPath) fileSize] else []) ++
  writes.map (fun w => FileOp.writeAt (workingPath destPath) w.1 w.2) ++
  (if isPaused || ctxCancelled || workerErr.isSome then []
   else [FileOp.syncFile (workingPath destPath),
         FileOp.renameFile (workingPath destPath) destPath])

/-- The session fields of `types.ProgressState` that seeding touches
(progress.go; `SavedElapsed` is declared with `SetSavedElapsed` in a
repository file outside src/ — spec §4.B and task.go line 273 fix its
meaning: elapsed time restored from previous sessions). -/
structure ProgressSnap where
  downloaded : Int
  savedElapsed : Int
  sessionStartBytes : Int
deriving DecidableEq, Repr

/-- Embedding of `ProgressState.SyncSessionStart` (progress.go lines 41-46):
re-snapshot the session baseline from the current counter (the wall-clock
reset is not modelled). -/
def syncSessionStart (ps : ProgressSnap) : ProgressSnap :=
  { ps with sessionStartBytes := ps.downloaded }

/-- The fresh-download branch of `Download` (task.go lines 278-289): truncate
the working file (recorded as the `true` flag), create fresh tasks, reset the
`Downloaded` counter to 0, re-sync the session baseline. -/
def freshSeed (fileSize chunkSize : Int) (ps : ProgressSnap) :
    List Task × ProgressSnap × Bool :=
  (createTasks fileSize chunkSize, syncSessionStart { ps with downloaded := 0 }, true)

/-- Embedding of the seeding step of `ConcurrentDownloader.Download`
(task.go lines 262-291).  `loadResult` is `LoadState`'s outcome (`none` for an
error/missing state).  The Bool records whether the working file was
truncated (the fresh path).  The resume condition in the source is
`err == nil && savedState != nil && len(savedState.Tasks) > 0` — no caller
`is_resume` flag reaches or is consulted by this code. -/
def downloadSeed (loadResult : Option DownloadState) (fileSize chunkSize : Int)
    (ps : ProgressSnap) : List Task × ProgressSnap × Bool :=
  match loadResult with
  | some saved =>
      if saved.tasks.length > 0 then
        (saved.tasks,
         syncSessionStart
           { ps with downloaded := saved.downloaded, savedElapsed := saved.elapsed },
         false)
      else freshSeed fileSize chunkSize ps
  | none => freshSeed fileSize chunkSize ps

/-- Modelled from the spec: the claim's seeding condition for C3 — saved
state present AND non-empty saved task list AND the caller requested
`is_resume` (spec §4.G.7). -/
def claimSeedCondition (statePresent tasksNonempty isResumeRequested : Bool) : Bool :=
  statePresent && tasksNonempty && isResumeRequested

/-- A saved state with one outstanding task, as `LoadState` would return it. -/
def savedC3 : DownloadState := ⟨"id1", "u", "d", "f", 8192, 4096, [⟨0, 4096⟩], 0, "", 0, 0⟩

/-- C3 counterexample: with saved state present and a non-empty task list,
`Download` seeds from the saved state (no truncation, saved tasks kept) no
matter what the caller requested — the seeding code never consults an
`is_resume` flag — whereas the claim's condition (`claimSeedCondition` with
`is_resume` not requested) demands the truncate-and-fresh-tasks path. -/
theorem c3_seed_counterexample :
    (downloadSeed (some savedC3) 8192 4096 ⟨0, 0, 0⟩).2.2 = false ∧
    (downloadSeed (some savedC3) 8192 4096 ⟨0, 0, 0⟩).1 = [⟨0, 4096⟩] ∧
    claimSeedCondition true true false = false :=
  ⟨rfl, rfl, rfl⟩

/-- C3 amended: `Download` seeds the queue from saved state — restoring the
downloaded counter and the saved elapsed time and re-syncing the session
baseline — iff saved state for `(url, dest_path)` exists with a non-empty
task list; the caller's `is_resume` request is not consulted.  In every other
case it truncates the working file to `file_size` and seeds fresh tasks with
a zeroed counter. -/
theorem c3_seed_iff_saved_nonempty (fileSize chunkSize : Int) (ps : ProgressSnap)
    (saved : DownloadState) :
    (saved.tasks ≠ [] →
      downloadSeed (some saved) fileSize chunkSize ps =
        (saved.tasks, ⟨saved.downloaded, saved.elapsed, saved.downloaded⟩, false)) ∧
    (saved.tasks = [] →
      downloadSeed (some saved) fileSize chunkSize ps = freshSeed fileSize chunkSize ps) ∧
    downloadSeed none fileSize chunkSize ps = freshSeed fileSize chunkSize ps ∧
    freshSeed fileSize chunkSize ps =
      (createTasks fileSize chunkSize, ⟨0, ps.savedElapsed, 0⟩, true) := by
  refine ⟨?_, ?_, rfl, rfl⟩
  · intro h
    have hlen : saved.tasks.length > 0 := List.length_pos.mpr h
    simp [downloadSeed, hlen, syncSessionStart]
  · intro h
    simp [downloadSeed, h]

/-- A saved row whose task list is empty. -/
def savedC3empty : DownloadState := ⟨"id2", "u", "d", "f", 8192, 0, [], 0, "", 0, 0⟩

/-- Witness for C3 amended: both the resume branch and the fresh branch at
concrete inputs. -/
theorem c3_seed_iff_saved_nonempty_witness :
    (savedC3.tasks ≠ [] ∧
      downloadSeed (some savedC3) 8192 4096 ⟨0, 0, 0⟩ =
        (savedC3.tasks, ⟨savedC3.downloaded, savedC3.elapsed, savedC3.downloaded⟩, false)) ∧
    (savedC3empty.tasks = [] ∧
      downloadSeed (some savedC3empty) 8192 4096 ⟨0, 0, 0⟩ = freshSeed 8192 4096 ⟨0, 0, 0⟩) :=
  ⟨⟨by decide, (c3_seed_iff_saved_nonempty 8192 4096 ⟨0, 0, 0⟩ savedC3).1 (by decide)⟩,
   ⟨rfl, (c3_seed_iff_saved_nonempty 8192 4096 ⟨0, 0, 0⟩ savedC3empty).2.1 rfl⟩⟩

/-- C4 counterexample: the working suffix is the exact string ".surge", not
".part" — the repository's own test pins the constant to ".surge". -/
theorem c4_suffix_counterexample :
    IncompleteSuffix = ".surge" ∧ IncompleteSuffix ≠ ".part" ∧
    workingPath "file" = "file.surge" ∧ workingPath "file" ≠ "file" ++ ".part" := by
  refine ⟨rfl, by decide, rfl, by decide⟩

/-- C4 amended: for every download, every file mutation of the run — open,
truncate, worker writes, sync — targets exactly `dest_path + ".surge"` (the
working suffix is `.surge`, not `.part`), and on successful completion the
last operation renames that working file onto `dest_path`. -/
theorem c4_working_path_and_rename (destPath : String) (fileSize : Int) (freshRun : Bool)
    (writes : List (Int × Nat)) (isPaused ctxCancelled : Bool) (workerErr : Option String) :
    (∀ op ∈ downloadFileOps destPath fileSize freshRun writes isPaused ctxCancelled workerErr,
        fileOpTarget op = destPath ++ ".surge") ∧
    (isPaused = false → ctxCancelled = false → workerErr = none →
      (downloadFileOps destPath fileSize freshRun writes isPaused ctxCancelled workerErr).getLast? =
        some (FileOp.renameFile (destPath ++ ".surge") destPath)) := by
  constructor
  · intro op hop
    simp only [downloadFileOps, List.append_assoc, List.mem_append, List.mem_singleton,
      List.mem_map] at hop
    rcases hop with rfl | hop
    · rfl
    rcases hop with hop | hop
    · rcases freshRun with _ | _
      · simp at hop
      · simp only [if_true] at hop
        rw [List.mem_singleton] at hop
        subst hop
        rfl
    rcases hop with ⟨w, _, rfl⟩ | hop
    · rfl
    · split_ifs at hop with hterm
      · simp at hop
      · rcases List.mem_cons.mp hop with rfl | h2
        · rfl
        · rw [List.mem_singleton] at h2
          subst h2
          rfl
  · intro hp hcc hwe
    subst hp hcc hwe
    simp only [downloadFileOps, Bool.or_false, Option.isSome_none, Bool.false_eq_true,
      if_false]
    rw [List.getLast?_append_of_ne_nil _ (by simp)]
    rfl

/-- Witness for C4 amended: a concrete successful fresh run. -/
theorem c4_working_path_and_rename_witness :
    ((false : Bool) = false ∧ (false : Bool) = false ∧ (none : Option String) = none) ∧
    (∀ op ∈ downloadFileOps "f" 100 true [(0, 50), (50, 50)] false false none,
        fileOpTarget op = "f" ++ ".surge") ∧
    (downloadFileOps "f" 100 true [(0, 50), (50, 50)] false false none).getLast? =
      some (FileOp.renameFile ("f" ++ ".surge") "f") :=
  ⟨⟨rfl, rfl, rfl⟩,
   (c4_working_path_and_rename "f" 100 true [(0, 50), (50, 50)] false false none).1,
   (c4_working_path_and_rename "f" 100 true [(0, 50), (50, 50)] false false none).2 rfl rfl rfl⟩

theorem newestStep_some (b r : DownloadRow) :
    newestStep (some b) r = if r.pausedAt > b.pausedAt then some r else some b := rfl

theorem foldl_newestStep_some (rows : List DownloadRow) :
    ∀ b : DownloadRow, ∃ r, rows.foldl newestStep (some b) = some r ∧
      (r = b ∨ r ∈ rows) ∧ b.pausedAt ≤ r.pausedAt ∧
      ∀ x ∈ rows, x.pausedAt ≤ r.pausedAt := by
  induction rows with
  | nil =>
    intro b
    exact ⟨b, rfl, Or.inl rfl, le_refl _, by simp⟩
  | cons y ys ih =>
    intro b
    simp only [List.foldl_cons, newestStep_some]
    by_cases hy : y.pausedAt > b.pausedAt
    · rw [if_pos hy]
      obtain ⟨r, h1, h2, h3, h4⟩ := ih y
      refine ⟨r, h1, ?_, by omega, ?_⟩
      · rcases h2 with rfl | hm
        · exact Or.inr (List.mem_cons_self _ _)
        · exact Or.inr (List.mem_cons_of_mem _ hm)
      · intro x hx
        rcases List.mem_cons.mp hx with rfl | hm
        · exact h3
        · exact h4 x hm
    · rw [if_neg hy]
      obtain ⟨r, h1, h2, h3, h4⟩ := ih b
      refine ⟨r, h1, ?_, h3, ?_⟩
      · rcases h2 with rfl | hm
        · exact Or.inl rfl
        · exact Or.inr (List.mem_cons_of_mem _ hm)
      · intro x hx
        rcases List.mem_cons.mp hx with rfl | hm
        · omega
        · exact h4 x hm

theorem newestRow_some (rows : List DownloadRow) (r : DownloadRow)
    (h : newestRow rows = some r) :
    r ∈ rows ∧ ∀ x ∈ rows, x.pausedAt ≤ r.pausedAt := by
  cases rows with
  | nil => simp [newestRow] at h
  | cons y ys =>
    unfold newestRow at h
    rw [List.foldl_cons, show newestStep none y = some y from rfl] at h
    obtain ⟨r2, h1, h2, h3, h4⟩ := foldl_newestStep_some ys y
    rw [h1] at h
    injection h with h
    subst h
    constructor
    · rcases h2 with rfl | hm
      · exact List.mem_cons_self _ _
      · exact List.mem_cons_of_mem _ hm
    · intro x hx
      rcases List.mem_cons.mp hx with rfl | hm
      · exact h3
      · exact h4 x hm

theorem newestRow_none (rows : List DownloadRow) (h : newestRow rows = none) :
    rows = [] := by
  cases rows with
  | nil => rfl
  | cons y ys =>
    unfold newestRow at h
    rw [List.foldl_cons, show newestStep none y = some y from rfl] at h
    obtain ⟨r2, h1, _⟩ := foldl_newestStep_some ys y
    rw [h1] at h
    cases h

/-- A store whose only row for `("u", "d")` is a completed one. -/
def storeC6 : Store := ⟨[⟨"id1", "u", "d", "f", "completed", 100, 100, "h", 1, 5, 0⟩], []⟩

/-- C6 counterexample: `LoadState` carries no status filter.  On a store whose
only `("u", "d")` row has status "completed" — so no paused row exists, and
the claim demands a not-found error — it returns that completed row. -/
theorem c6_loadState_counterexample :
    loadState storeC6 "u" "d" =
      Except.ok ⟨"id1", "u", "d", "f", 100, 100, [], 0, "h", 5, 1⟩ ∧
    (∀ r ∈ storeC6.downloads, r.status ≠ "paused") := by
  constructor
  · rfl
  · decide

/-- C6 amended: `LoadState(url, dest_path)` returns the row with the newest
`paused_at` among the rows matching `(url, dest_path)` — of any status, not
only paused ones — together with that row's tasks, and returns a not-found
error exactly when no row matches `(url, dest_path)` at all. -/
theorem c6_loadState_newest_any_status (store : Store) (url destPath : String) :
    ((∀ r ∈ store.downloads, ¬(r.url = url ∧ r.destPath = destPath)) →
      loadState store url destPath = Except.error "state not found") ∧
    (∀ s, loadState store url destPath = Except.ok s →
      ∃ r, r ∈ store.downloads ∧ r.url = url ∧ r.destPath = destPath ∧
        (∀ r2 ∈ store.downloads, r2.url = url → r2.destPath = destPath →
          r2.pausedAt ≤ r.pausedAt) ∧
        s = ⟨r.id, r.url, r.destPath, r.filename, r.totalSize, r.downloaded,
          (store.tasks.filter (fun t => t.downloadId == r.id)).map
            (fun t => (⟨t.offset, t.length⟩ : Task)),
          r.timeTaken * 1000000, r.urlHash, r.pausedAt, r.createdAt⟩) ∧
    ((∃ r ∈ store.downloads, r.url = url ∧ r.destPath = destPath) →
      ∃ s, loadState store url destPath = Except.ok s) := by
  refine ⟨?_, ?_, ?_⟩
  · intro h
    have hfil : store.downloads.filter
        (fun r => r.url == url && r.destPath == destPath) = [] := by
      rw [List.filter_eq_nil_iff]
      intro r hr
      have := h r hr
      simp only [Bool.and_eq_true, beq_iff_eq]
      tauto
    unfold loadState
    rw [hfil, show newestRow [] = none from rfl]
  · intro s hs
    unfold loadState at hs
    cases hnr : newestRow (store.downloads.filter
        (fun r => r.url == url && r.destPath == destPath)) with
    | none =>
      rw [hnr] at hs
      cases hs
    | some r =>
      rw [hnr] at hs
      injection hs with hs
      obtain ⟨hmem, hmax⟩ := newestRow_some _ r hnr
      rw [List.mem_filter] at hmem
      obtain ⟨hmem, hpred⟩ := hmem
      simp only [Bool.and_eq_true, beq_iff_eq] at hpred
      refine ⟨r, hmem, hpred.1, hpred.2, ?_, hs.symm⟩
      intro r2 hr2 hu hd
      exact hmax r2 (List.mem_filter.mpr ⟨hr2, by simp [hu, hd]⟩)
  · intro ⟨r, hr, hu, hd⟩
    unfold loadState
    cases hnr : newestRow (store.downloads.filter
        (fun r => r.url == url && r.destPath == destPath)) with
    | none =>
      have := newestRow_none _ hnr
      have hrm : r ∈ store.downloads.filter
          (fun r => r.url == url && r.destPath == destPath) :=
        List.mem_filter.mpr ⟨hr, by simp [hu, hd]⟩
      rw [this] at hrm
      cases hrm
    | some r2 => exact ⟨_, rfl⟩

/-- Witness for C6 amended: the not-found branch on an empty store and the
found branch on `storeC6`. -/
theorem c6_loadState_newest_any_status_witness :
    ((∀ r ∈ (⟨[], []⟩ : Store).downloads, ¬(r.url = "u" ∧ r.destPath = "d")) ∧
      loadState ⟨[], []⟩ "u" "d" = Except.error "state not found") ∧
    ((∃ r ∈ storeC6.downloads, r.url = "u" ∧ r.destPath = "d") ∧
      ∃ s, loadState storeC6 "u" "d" = Except.ok s) :=
  ⟨⟨by simp, (c6_loadState_newest_any_status ⟨[], []⟩ "u" "d").1 (by simp)⟩,
   ⟨⟨⟨"id1", "u", "d", "f", "completed", 100, 100, "h", 1, 5, 0⟩, by decide, rfl, rfl⟩,
    (c6_loadState_newest_any_status storeC6 "u" "d").2.2
      ⟨⟨"id1", "u", "d", "f", "completed", 100, 100, "h", 1, 5, 0⟩, by decide, rfl, rfl⟩⟩⟩

theorem map_roundtrip_tasks (l : List Task) :
    l.map (fun t => (⟨t.offset, t.length⟩ : Task)) = l := by
  induction l with
  | nil => rfl
  | cons t ts ih =>
    cases t
    simp [ih]

theorem upsertDownload_exists_id (rows : List DownloadRow) (row : DownloadRow) :
    ∃ r ∈ upsertDownload rows row, r.id = row.id := by
  unfold upsertDownload
  split_ifs with hany
  · rw [List.any_eq_true] at hany
    obtain ⟨old, hold, hbeq⟩ := hany
    refine ⟨{ row with createdAt := old.createdAt }, ?_, rfl⟩
    rw [List.mem_map]
    exact ⟨old, hold, by rw [if_pos hbeq]⟩
  · exact ⟨row, List.mem_append.mpr (Or.inr (List.mem_singleton.mpr rfl)), rfl⟩

theorem upsertDownload_mem_id (rows : List DownloadRow) (row r : DownloadRow)
    (hr : r ∈ upsertDownload rows row) (hid : r.id = row.id) :
    ∃ c, r = { row with createdAt := c } := by
  unfold upsertDownload at hr
  split_ifs at hr with hany
  · rw [List.mem_map] at hr
    obtain ⟨old, hold, hset⟩ := hr
    by_cases hoid : (old.id == row.id) = true
    · rw [if_pos hoid] at hset
      exact ⟨old.createdAt, hset.symm⟩
    · rw [if_neg hoid] at hset
      subst hset
      rw [beq_iff_eq] at hoid
      exact absurd hid hoid
  · rw [List.mem_append] at hr
    rcases hr with hr | hr
    · have : rows.any (fun old => old.id == row.id) = true :=
        List.any_eq_true.mpr ⟨r, hr, by simp [hid]⟩
      exact absurd this hany
    · rw [List.mem_singleton] at hr
      exact ⟨row.createdAt, by rw [hr]⟩

theorem saveState_tasks (hash : String → String) (now : Int) (freshId : String)
    (store : Store) (url destPath : String) (s : DownloadState) :
    ((saveState hash now freshId store url destPath s).tasks.filter
        (fun t => t.downloadId == (if s.id = "" then freshId else s.id))).map
      (fun t => (⟨t.offset, t.length⟩ : Task)) = s.tasks := by
  unfold saveState
  dsimp only
  rw [List.filter_append]
  have h1 : (store.tasks.filter
      (fun tr => tr.downloadId ≠ (if s.id = "" then freshId else s.id))).filter
        (fun t => t.downloadId == (if s.id = "" then freshId else s.id)) = [] := by
    rw [List.filter_eq_nil_iff]
    intro t ht
    rw [List.mem_filter] at ht
    obtain ⟨_, hne⟩ := ht
    simp only [decide_eq_true_eq] at hne
    simp [hne]
  have h2 : ((s.tasks.map
      (fun t => (⟨if s.id = "" then freshId else s.id, t.offset, t.length⟩ : TaskRow))).filter
        (fun t => t.downloadId == (if s.id = "" then freshId else s.id))) =
      s.tasks.map
        (fun t => (⟨if s.id = "" then freshId else s.id, t.offset, t.length⟩ : TaskRow)) := by
    rw [List.filter_eq_self]
    intro a ha
    rw [List.mem_map] at ha
    obtain ⟨t, _, rfl⟩ := ha
    simp
  rw [h1, h2, List.nil_append, List.map_map]
  exact map_roundtrip_tasks s.tasks

/-- C1: for every run of `ConcurrentDownloader.Download` whose progress state
ends paused, the pause branch persists a row for the download whose status is
"paused", whose task rows are exactly the tasks drained from the queue plus
the `RemainingTask()` of every still-registered `ActiveTask`, whose
`downloaded` equals `file_size` minus the summed lengths of those remaining
tasks, and the branch's return value is the `ErrPaused` sentinel. -/
theorem c1_pause_persists (hash : String → String) (now : Int) (freshId : String)
    (id url destPath : String) (fileSize savedElapsed sinceStart : Int)
    (activeTasks : List ActiveTaskSnap) (queue : TaskQueue) (store : Store) :
    (pauseFinalize hash now freshId id url destPath fileSize savedElapsed sinceStart
        activeTasks queue store).2 = DownloadResult.errPaused ∧
    (((pauseFinalize hash now freshId id url destPath fileSize savedElapsed sinceStart
        activeTasks queue store).1.tasks.filter
          (fun t => t.downloadId == (if id = "" then freshId else id))).map
        (fun t => (⟨t.offset, t.length⟩ : Task))
      = (drainRemaining queue).1 ++ activeTasks.filterMap remainingTask) ∧
    (∃ r ∈ (pauseFinalize hash now freshId id url destPath fileSize savedElapsed sinceStart
        activeTasks queue store).1.downloads, r.id = (if id = "" then freshId else id)) ∧
    (∀ r ∈ (pauseFinalize hash now freshId id url destPath fileSize savedElapsed sinceStart
        activeTasks queue store).1.downloads, r.id = (if id = "" then freshId else id) →
      r.status = "paused" ∧ r.url = url ∧ r.destPath = destPath ∧ r.totalSize = fileSize ∧
      r.downloaded = fileSize -
        ((((drainRemaining queue).1 ++ activeTasks.filterMap remainingTask).map
          Task.length)).sum ∧
      r.pausedAt = now) := by
  refine ⟨rfl, ?_, ?_, ?_⟩
  · exact saveState_tasks hash now freshId store url destPath
      ⟨id, url, destPath, String.mk (goBase destPath.toList), fileSize,
       fileSize - ((((drainRemaining queue).1 ++ activeTasks.filterMap remainingTask).map
         Task.length)).sum,
       (drainRemaining queue).1 ++ activeTasks.filterMap remainingTask,
       savedElapsed + sinceStart, "", 0, 0⟩
  · exact upsertDownload_exists_id store.downloads _
  · intro r hr hid
    obtain ⟨c, rfl⟩ := upsertDownload_mem_id store.downloads _ r hr hid
    exact ⟨rfl, rfl, rfl, rfl, rfl, rfl⟩

/-- Concrete pause scenario for the C1 witness: one active task with 20 bytes
remaining, one queued task of 50 bytes, file size 100. -/
def pauseC1 : Store × DownloadResult :=
  pauseFinalize (fun _ => "h") 7 "F" "D1" "u" "/tmp/f" 100 0 5
    [⟨30, 50⟩] ⟨[⟨50, 50⟩], 0, true⟩ ⟨[], []⟩

/-- Witness for C1: the persisted row of the concrete pause scenario has
status "paused" and `downloaded = 100 - (50 + 20) = 30`. -/
theorem c1_pause_persists_witness :
    ((⟨"D1", "u", "/tmp/f", "f", "paused", 100, 30, "h", 7, 7, 0⟩ : DownloadRow) ∈
        pauseC1.1.downloads ∧
      (⟨"D1", "u", "/tmp/f", "f", "paused", 100, 30, "h", 7, 7, 0⟩ : DownloadRow).id =
        (if "D1" = "" then "F" else "D1")) ∧
    ((⟨"D1", "u", "/tmp/f", "f", "paused", 100, 30, "h", 7, 7, 0⟩ : DownloadRow).status =
        "paused" ∧
      (⟨"D1", "u", "/tmp/f", "f", "paused", 100, 30, "h", 7, 7, 0⟩ : DownloadRow).url = "u" ∧
      (⟨"D1", "u", "/tmp/f", "f", "paused", 100, 30, "h", 7, 7, 0⟩ : DownloadRow).destPath =
        "/tmp/f" ∧
      (⟨"D1", "u", "/tmp/f", "f", "paused", 100, 30, "h", 7, 7, 0⟩ : DownloadRow).totalSize =
        100 ∧
      (⟨"D1", "u", "/tmp/f", "f", "paused", 100, 30, "h", 7, 7, 0⟩ : DownloadRow).downloaded =
        100 - ((((drainRemaining ⟨[⟨50, 50⟩], 0, true⟩).1 ++
          [⟨30, 50⟩].filterMap remainingTask).map Task.length)).sum ∧
      (⟨"D1", "u", "/tmp/f", "f", "paused", 100, 30, "h", 7, 7, 0⟩ : DownloadRow).pausedAt =
        7) :=
  ⟨⟨by decide, rfl⟩,
   (c1_pause_persists (fun _ => "h") 7 "F" "D1" "u" "/tmp/f" 100 0 5
      [⟨30, 50⟩] ⟨[⟨50, 50⟩], 0, true⟩ ⟨[], []⟩).2.2.2
     ⟨"D1", "u", "/tmp/f", "f", "paused", 100, 30, "h", 7, 7, 0⟩ (by decide) rfl⟩
